import Mathlib

/-!
Shallow embedding of the Mesh_Radio_Flasher firmware (an ESP32-based SWD flasher
and BLE-to-TCP proxy for nRF52 targets), together with theorems settling the
behavioural claims about it.  Pure control flow is translated into Lean
functions; interaction with the target and the network is captured by explicit
oracle functions (one response per transaction) and by event traces returned
alongside each result.  Machine integers are Nat with explicit reduction
modulo 2^32 where the C code can wrap.
-/

namespace Flasher

/-- The esp_err_t codes this code base returns (esp_err.h is an SDK header,
outside src/).  Only the codes actually produced by the modelled functions are
listed; `other` covers any further SDK code propagated from a collaborator. -/
inductive EspErr
  | ok
  | fail
  | timeout
  | invalidArg
  | invalidState
  | other (code : Nat)
  deriving DecidableEq, Repr

/-- Modelled from the spec: nRF52840 flash size, 1 MiB (the constant lives in
nrf52_hal.h, which is not under src/). -/
def NRF52_FLASH_SIZE : Nat := 0x00100000

/-- Modelled from the spec: nRF52 flash page size, 4 KiB (nrf52_hal.h is not
under src/; web_handlers.c repeats it as NRF52_PAGE_SIZE 4096). -/
def NRF52_FLASH_PAGE_SIZE : Nat := 4096

/-- Modelled from the spec: NVMC register block at 0x4001E000, READY at
offset 0x400. -/
def NVMC_READY : Nat := 0x4001E400

/-- Modelled from the spec: NVMC CONFIG register (offset 0x504). -/
def NVMC_CONFIG : Nat := 0x4001E504

/-- Modelled from the spec: NVMC ERASEPAGE register (offset 0x508). -/
def NVMC_ERASEPAGE : Nat := 0x4001E508

/-- Modelled from the spec: NVMC CONFIG read-enable mode. -/
def NVMC_CONFIG_REN : Nat := 0

/-- Modelled from the spec: NVMC CONFIG write-enable mode. -/
def NVMC_CONFIG_WEN : Nat := 1

/-- Modelled from the spec: NVMC CONFIG erase-enable mode. -/
def NVMC_CONFIG_EEN : Nat := 2

/-- Modelled from the spec: SWD ACK value OK = 0b001 (swd_core.h is not under
src/). -/
def SWD_ACK_OK : Nat := 1

/-- Modelled from the spec: SWD ACK value WAIT = 0b010. -/
def SWD_ACK_WAIT : Nat := 2

/-- Modelled from the spec: SWD ACK value FAULT = 0b100. -/
def SWD_ACK_FAULT : Nat := 4

/-- Modelled from the spec: DP ABORT register address (0x0, write). -/
def DP_ABORT : Nat := 0x0

/-- Modelled from the spec: CTRL-AP RESET register (AP-relative 0x000). -/
def CTRL_AP_RESET : Nat := 0x000

/-- Modelled from the spec: CTRL-AP ERASEALLSTATUS register (AP-relative
0x008). -/
def CTRL_AP_ERASEALLSTATUS : Nat := 0x008

/-- Modelled from the spec: CTRL-AP APPROTECTSTATUS register (AP-relative
0x00C). -/
def CTRL_AP_APPROTECTSTATUS : Nat := 0x00C

/-- web_handlers.c PAGE_BUFFER_SIZE: the 16 KiB coalescing buffer. -/
def PAGE_BUFFER_SIZE : Nat := 16 * 1024

/-- Shorthand for the 32-bit wraparound modulus. -/
def U32 : Nat := 2 ^ 32

/-! ## SWD line driver (swd_core.c) -/

/-- One `x ^= x >> s` step of the parity fold in swd_core.c parity32. -/
def parity_fold (s w : Nat) : Nat := w ^^^ (w >>> s)

/-- swd_core.c parity32: fold the word with shifts 16, 8 and 4, mask to the
low nibble, and index the 0x6996 lookup constant; the result is the 0-or-1
value of the C bool expression ((0x6996 >> x) & 1). -/
def parity32 (x : Nat) : Nat :=
  (0x6996 >>> (parity_fold 4 (parity_fold 8 (parity_fold 16 x)) &&& 0xF)) &&& 1

/-- swd_core.c swd_transfer_raw, response phase.  The line-level GPIO work
(request emission, turnaround cycles, parking and dummy bits) is wire I/O
outside the shallow embedding; what remains is how the sampled response is
turned into the returned ACK and into the callers word.  `ack` is the 3-bit
ACK sampled after the request, `value` and `parityBit` are the 33 bits sampled
on a read response (unused on a write), and `dataIn` is the callers word
`*data` before the call.  The result is the returned ACK paired with `*data`
after the call. -/
def swd_transfer_raw (read : Bool) (ack value parityBit dataIn : Nat) :
    Nat × Nat :=
  if ack = SWD_ACK_OK then
    if read then
      if parityBit ≠ parity32 value then (SWD_ACK_FAULT, dataIn)
      else (SWD_ACK_OK, value)
    else (SWD_ACK_OK, dataIn)
  else (ack, dataIn)

/-! ## DAP transaction layer (swd_core.c) -/

/-- Observable steps of one run of a DAP-layer retry loop. -/
inductive DapEvent
  | transfer (attempt : Nat)
  | delay1ms
  | abortWrite (addr val : Nat)
  deriving DecidableEq, Repr

/-- swd_core.c swd_dp_read (lines 301-321): the 10-attempt retry loop shared
verbatim by swd_dp_write, swd_ap_read and swd_ap_write.  `acks i` is the ACK
returned by the i-th call of swd_transfer_raw.  vTaskDelay(1) on WAIT is
recorded as a delay1ms event; swd_clear_errors on FAULT (lines 483-488), which
performs swd_dp_write(DP_ABORT, 0x1E), is recorded as an abortWrite event.
Any other ACK value (a protocol error) falls through to the next attempt, as
in the C if/else chain.  The Bool is ESP_OK (true) versus ESP_FAIL (false). -/
def dp_read_aux (acks : Nat → Nat) : Nat → Nat → Bool × List DapEvent
  | _, 0 => (false, [])
  | i, fuel + 1 =>
    let a := acks i
    if a = SWD_ACK_OK then (true, [.transfer i])
    else if a = SWD_ACK_WAIT then
      let r := dp_read_aux acks (i + 1) fuel
      (r.1, .transfer i :: .delay1ms :: r.2)
    else if a = SWD_ACK_FAULT then
      let r := dp_read_aux acks (i + 1) fuel
      (r.1, .transfer i :: .abortWrite DP_ABORT 0x1E :: r.2)
    else
      let r := dp_read_aux acks (i + 1) fuel
      (r.1, .transfer i :: r.2)

/-- swd_core.c swd_dp_read: the loop entered at attempt 0 with the 10-attempt
budget of the for loop. -/
def swd_dp_read (acks : Nat → Nat) : Bool × List DapEvent :=
  dp_read_aux acks 0 10

/-- Recognizer for transfer events. -/
def isTransfer : DapEvent → Bool
  | .transfer _ => true
  | _ => false

/-! ## NVMC flash engine (swd_flash.c)

The target is reached one SWD transaction at a time; each kind of transaction
a flash operation issues is given by an oracle field of `NvmcDev`, indexed by
how many transactions of that kind the operation has issued so far.  A read
oracle returns the esp_err_t code of the transaction together with the word
read (the word is meaningful only when the code is ok, as for the C out
parameter); a write oracle returns just the code.  wait_nvmc_ready
(swd_flash.c lines 13-46) is a timed polling loop over tick counts; its
outcome for the n-th call is abstracted to the oracle field waitReady. -/

/-- Oracle for the SWD memory transactions a flash operation issues. -/
structure NvmcDev where
  readyBefore : EspErr
  cfgWrite : Nat → EspErr
  cfgRead : Nat → EspErr × Nat
  memWrite : Nat → Nat → EspErr
  memRead : Nat → Nat → EspErr × Nat
  pollReady : Nat → EspErr × Nat
  waitReady : Nat → EspErr
  verifyRead : Nat → Bool → EspErr × Nat

/-- swd_flash.c set_nvmc_config (lines 49-67): write NVMC_CONFIG, read it
back, and require the low two bits to equal the requested mode.  `n` is the
number of CONFIG transactions issued so far by the surrounding operation; the
updated count is returned with the result. -/
def set_nvmc_config (dev : NvmcDev) (n : Nat) (mode : Nat) : EspErr × Nat :=
  let r := dev.cfgWrite n
  if r ≠ .ok then (r, n + 1)
  else
    let rc := dev.cfgRead (n + 1)
    if rc.1 ≠ .ok then (rc.1, n + 2)
    else if rc.2 &&& 0x3 ≠ mode then (.fail, n + 2)
    else (.ok, n + 2)

/-- swd_flash.c swd_flash_erase_page, one pass of the verification loop body
(lines 155-181) at sampled address `a`: read the word; a value other than
0xFFFFFFFF is read a second time after a 1 ms delay, and only a re-read that
again differs from 0xFFFFFFFF fails the verification with ESP_FAIL.  A
failed read transaction aborts with its own error code.  `read a retry`
models swd_mem_read32 at `a` (retry marks the second read).  The list
records the reads issued, as (address, was-retry) pairs. -/
def verify_word (read : Nat → Bool → EspErr × Nat) (a : Nat) :
    EspErr × List (Nat × Bool) :=
  let r1 := read a false
  if r1.1 ≠ .ok then (r1.1, [(a, false)])
  else if r1.2 ≠ 0xFFFFFFFF then
    let r2 := read a true
    if r2.1 ≠ .ok then (r2.1, [(a, false), (a, true)])
    else if r2.2 ≠ 0xFFFFFFFF then (.fail, [(a, false), (a, true)])
    else (.ok, [(a, false), (a, true)])
  else (.ok, [(a, false)])

/-- swd_flash.c swd_flash_erase_page, verification loop (lines 153-182): run
verify_word over the sampled offsets in order, stopping at the first
non-ok result as the for loop does via goto cleanup. -/
def erase_verify_go (read : Nat → Bool → EspErr × Nat) (addr : Nat) :
    List Nat → EspErr × List (Nat × Bool)
  | [] => (.ok, [])
  | off :: rest =>
    let w := verify_word read (addr + off)
    if w.1 ≠ .ok then w
    else
      let r := erase_verify_go read addr rest
      (r.1, w.2 ++ r.2)

/-- swd_flash.c swd_flash_erase_page verification phase, with the
verify_offsets array {0, 4, 8, NRF52_FLASH_PAGE_SIZE - 4} of line 154. -/
def erase_verify (read : Nat → Bool → EspErr × Nat) (addr : Nat) :
    EspErr × List (Nat × Bool) :=
  erase_verify_go read addr [0, 4, 8, NRF52_FLASH_PAGE_SIZE - 4]

/-- swd_flash.c swd_flash_erase_page, completion poll (lines 117-135): after
the initial 90 ms sleep, NVMC_READY is read every 10 ms while elapsed time
stays below the 400 ms budget, hence at most 31 reads; bit 0 set ends the
poll.  A failed read aborts with its code; budget exhaustion is
ESP_ERR_TIMEOUT. -/
def erase_poll (dev : NvmcDev) : Nat → Nat → EspErr
  | _, 0 => .timeout
  | i, fuel + 1 =>
    let r := dev.pollReady i
    if r.1 ≠ .ok then r.1
    else if r.2 &&& 1 ≠ 0 then .ok
    else erase_poll dev (i + 1) fuel

/-- swd_flash.c swd_flash_erase_page (lines 70-191).  Out-of-range addresses
are rejected before anything is sent to the target; in-range addresses are
masked to the page base.  Then: wait for NVMC ready, enter erase mode (with
the double check of lines 96-103), trigger ERASEPAGE, poll for completion,
return to read mode, and verify.  The cleanup label always restores
CONFIG=REN; that restore only consults the oracle with its result ignored, so
it does not appear in the result.  The returned list is the trace of
verification reads (empty when verification was never reached). -/
def swd_flash_erase_page (dev : NvmcDev) (addr : Nat) :
    EspErr × List (Nat × Bool) :=
  if NRF52_FLASH_SIZE ≤ addr then (.invalidArg, [])
  else
    let page := addr - addr % NRF52_FLASH_PAGE_SIZE
    if dev.readyBefore ≠ .ok then (dev.readyBefore, [])
    else
      let c1 := set_nvmc_config dev 0 NVMC_CONFIG_EEN
      if c1.1 ≠ .ok then (c1.1, [])
      else
        let dc := dev.cfgRead c1.2
        if dc.1 ≠ .ok ∨ dc.2 &&& 0x3 ≠ NVMC_CONFIG_EEN then (.fail, [])
        else if dev.memWrite 0 NVMC_ERASEPAGE ≠ .ok then
          (dev.memWrite 0 NVMC_ERASEPAGE, [])
        else
          let p := erase_poll dev 0 31
          if p ≠ .ok then (p, [])
          else
            let c2 := set_nvmc_config dev (c1.2 + 1) NVMC_CONFIG_REN
            if c2.1 ≠ .ok then (c2.1, [])
            else erase_verify dev.verifyRead page

/-- Little-endian word assembly, as by the *(uint32_t*) access of
swd_flash.c line 291 on the ESP32. -/
def word_of_bytes (b0 b1 b2 b3 : Nat) : Nat :=
  (b0 &&& 0xFF) ||| ((b1 &&& 0xFF) <<< 8) ||| ((b2 &&& 0xFF) <<< 16) |||
    ((b3 &&& 0xFF) <<< 24)

/-- Overwrite byte i of a 32-bit word, as the word_bytes[i] stores of
swd_flash.c lines 271-273 and 319-321. -/
def set_byte (w i b : Nat) : Nat :=
  (w &&& (0xFFFFFFFF ^^^ (0xFF <<< (8 * i)))) ||| ((b &&& 0xFF) <<< (8 * i))

/-- Patch consecutive bytes of a word starting at byte offset `off`. -/
def patch_bytes (w : Nat) (off : Nat) : List Nat → Nat
  | [] => w
  | b :: bs => patch_bytes (set_byte w off b) (off + 1) bs

/-- Observable NVMC accesses of a buffer program. -/
inductive NvmcEv
  | cfgWriteEv (mode : Nat)
  | cfgReadEv
  | memReadEv (addr : Nat)
  | memWriteEv (addr val : Nat)
  | waitReadyEv
  deriving DecidableEq, Repr

/-- Events issued by one set_nvmc_config call. -/
def cfg_events (dev : NvmcDev) (n : Nat) (mode : Nat) : List NvmcEv :=
  if dev.cfgWrite n ≠ .ok then [.cfgWriteEv mode]
  else [.cfgWriteEv mode, .cfgReadEv]

/-- swd_flash.c swd_flash_write_buffer, aligned body and tail (lines
290-330).  Words are written from four bytes at a time; NVMC_READY is awaited
only when the written count ends a 256-byte batch ((written & 0xFF) == 0xFC)
or the word is the last full word (size == 4).  Fewer than four remaining
bytes are patched into an 0xFFFFFFFF word and written with a final wait.
`w` and `t` count the memWrite and waitReady transactions already issued. -/
def write_words (dev : NvmcDev) :
    Nat → Nat → Nat → Nat → List Nat → EspErr × List NvmcEv
  | addr, written, w, t, b0 :: b1 :: b2 :: b3 :: rest =>
    let v := word_of_bytes b0 b1 b2 b3
    let r := dev.memWrite w addr
    if r ≠ .ok then (r, [.memWriteEv addr v])
    else if written &&& 0xFF = 0xFC ∨ rest.length = 0 then
      let rw := dev.waitReady t
      if rw ≠ .ok then (rw, [.memWriteEv addr v, .waitReadyEv])
      else
        let k := write_words dev (addr + 4) (written + 4) (w + 1) (t + 1) rest
        (k.1, .memWriteEv addr v :: .waitReadyEv :: k.2)
    else
      let k := write_words dev (addr + 4) (written + 4) (w + 1) t rest
      (k.1, .memWriteEv addr v :: k.2)
  | _, _, _, _, [] => (.ok, [])
  | addr, _, w, t, rest =>
    let v := patch_bytes 0xFFFFFFFF 0 rest
    let r := dev.memWrite w addr
    if r ≠ .ok then (r, [.memWriteEv addr v])
    else
      let rw := dev.waitReady t
      (rw, [.memWriteEv addr v, .waitReadyEv])

/-- swd_flash.c swd_flash_write_buffer (lines 242-342).  A null data pointer
is not representable here; the `!data || size == 0` guard is the empty-list
case, rejected as ESP_ERR_INVALID_ARG before any NVMC access.  Otherwise
CONFIG=WEN is set once, an unaligned start is handled by read-patch-write of
the covering word, the body and tail are written by write_words, and the
cleanup always restores CONFIG=REN (whose CONFIG transactions close the
trace; its result is ignored, as in the C).  The trace lists every NVMC
access issued. -/
def swd_flash_write_buffer (dev : NvmcDev) (addr : Nat) (data : List Nat) :
    EspErr × List NvmcEv :=
  if data.length = 0 then (.invalidArg, [])
  else
    let c1 := set_nvmc_config dev 0 NVMC_CONFIG_WEN
    let evs1 := cfg_events dev 0 NVMC_CONFIG_WEN
    if c1.1 ≠ .ok then (c1.1, evs1)
    else
      let body :=
        if addr % 4 ≠ 0 then
          let aligned := addr - addr % 4
          let off := addr % 4
          let rr := dev.memRead 0 aligned
          if rr.1 ≠ .ok then (rr.1, [NvmcEv.memReadEv aligned])
          else
            let k := min (4 - off) data.length
            let v := patch_bytes rr.2 off (data.take k)
            let rw := dev.memWrite 0 aligned
            if rw ≠ .ok then
              (rw, [NvmcEv.memReadEv aligned, NvmcEv.memWriteEv aligned v])
            else
              let rt := dev.waitReady 0
              if rt ≠ .ok then
                (rt, [NvmcEv.memReadEv aligned, NvmcEv.memWriteEv aligned v,
                      NvmcEv.waitReadyEv])
              else
                let rec1 := write_words dev (addr + k) k 1 1 (data.drop k)
                (rec1.1,
                  NvmcEv.memReadEv aligned :: NvmcEv.memWriteEv aligned v ::
                    NvmcEv.waitReadyEv :: rec1.2)
        else write_words dev addr 0 0 0 data
      (body.1, evs1 ++ body.2 ++ cfg_events dev c1.2 NVMC_CONFIG_REN)

/-! ## CTRL-AP unlock (swd_flash.c) -/

/-- swd_flash.c swd_flash_mass_erase_ctrl_ap, ERASEALLSTATUS poll (lines
426-457): every iteration consumes 50 ms of the 5000 ms budget, hence at most
100 reads.  A failed read only logs and retries; a status word of 0 completes
the poll; exhaustion is ESP_ERR_TIMEOUT.  `reads i` models the i-th
swd_ap_read of CTRL_AP_ERASEALLSTATUS. -/
def mass_erase_poll (reads : Nat → EspErr × Nat) : Nat → Nat → EspErr
  | _, 0 => .timeout
  | i, fuel + 1 =>
    let r := reads i
    if r.1 ≠ .ok then mass_erase_poll reads (i + 1) fuel
    else if r.2 = 0 then .ok
    else mass_erase_poll reads (i + 1) fuel

/-- Modelled from the spec: the poll the claim describes, identical to the
code except for the budget of 120 s, which at the 50 ms interval of the code
is 2400 iterations. -/
def mass_erase_poll_spec (reads : Nat → EspErr × Nat) : EspErr :=
  mass_erase_poll reads 0 2400

/-- Observable target operations of the mass-erase tail. -/
inductive CtrlApEv
  | apWriteEv (reg val : Nat)
  | apReadEv (reg : Nat)
  | furtherSteps
  deriving DecidableEq, Repr

/-- swd_flash.c swd_flash_mass_erase_ctrl_ap from the ERASEALLSTATUS poll on
(lines 426-550).  On budget exhaustion the function returns ESP_ERR_TIMEOUT
at once, issuing nothing further to the target.  Only on completion do the
remaining steps run: reset release, the APPROTECTSTATUS check, and the
MEM-AP reselect / reconnect / verification tail, which is summarized by the
furtherSteps event with its combined outcome given by the oracle `post`. -/
def mass_erase_after_trigger (reads : Nat → EspErr × Nat) (post : EspErr) :
    EspErr × List CtrlApEv :=
  let r := mass_erase_poll reads 0 100
  if r = .timeout then (.timeout, [])
  else
    (post, [.apWriteEv CTRL_AP_RESET 0, .apReadEv CTRL_AP_APPROTECTSTATUS,
            .furtherSteps])

/-- swd_flash.c swd_flash_disable_approtect, ERASEALLSTATUS poll (lines
681-709): every iteration consumes 10 ms of the 1000 ms budget, hence at most
100 reads.  Unlike the mass-erase poll, a failed read aborts at once with its
code; a status word of 0 completes; exhaustion is ESP_ERR_TIMEOUT. -/
def approtect_poll (reads : Nat → EspErr × Nat) : Nat → Nat → EspErr
  | _, 0 => .timeout
  | i, fuel + 1 =>
    let r := reads i
    if r.1 ≠ .ok then r.1
    else if r.2 = 0 then .ok
    else approtect_poll reads (i + 1) fuel

/-! ## HEX streaming ingest, coalescing buffer (web_handlers.c) -/

/-- The coalescing-buffer fields of upload_context_t (web_handlers.c lines
42-44): page_buffer as a byte map over indices, with buffer_start_addr and
buffer_data_len.  The remaining fields track progress and do not feed back
into the coalescing decisions. -/
structure UploadCtx where
  buffer_start_addr : Nat
  buffer_data_len : Nat
  page_buffer : Nat → Nat

/-- The memcpy of web_handlers.c line 114: copy the payload bytes into the
buffer starting at byte offset `off`. -/
def write_payload (buf : Nat → Nat) (off : Nat) : List Nat → (Nat → Nat)
  | [] => buf
  | b :: bs => write_payload (fun j => if j = off then b else buf j) (off + 1) bs

/-- web_handlers.c flush_buffer (lines 52-90), as it acts on the coalescing
state.  An empty buffer returns ESP_OK at once.  Otherwise the covering
pages are erased and the buffer programmed; the target-side work of those
calls is the swd_flash_erase_page / swd_flash_write_buffer models above, and
`flashRes` stands for the first non-ok result of that erase-then-program
sequence, or ok when every step succeeded.  On a failure the C returns that
error early (lines 68-71 and 78-81): the bytes and buffer_data_len stay
untouched.  Only on success is the buffer refilled with 0xFF and its length
reset. -/
def flush_buffer (ctx : UploadCtx) (flashRes : EspErr) : UploadCtx × EspErr :=
  if ctx.buffer_data_len = 0 then (ctx, .ok)
  else if flashRes ≠ .ok then (ctx, flashRes)
  else ({ ctx with page_buffer := fun _ => 0xFF, buffer_data_len := 0 }, .ok)

/-- web_handlers.c hex_flash_callback, HEX_TYPE_DATA case (lines 97-124).
offset_in_buffer is the uint32 difference abs_addr - buffer_start_addr
(wraparound made explicit); an empty buffer adopts the record, a record below
buffer_start_addr or one whose end offset exceeds PAGE_BUFFER_SIZE calls
flush_buffer - whose result the callback ignores, line 108 - and restarts,
and any other record is copied at its offset, with buffer_data_len raised to
the new end when that is larger.  `flashRes` is the flash outcome
flush_buffer would see (unused when no flush happens).  The Bool result
reports whether flush_buffer ran. -/
def hex_data_record (ctx : UploadCtx) (abs_addr : Nat) (payload : List Nat)
    (flashRes : EspErr) : UploadCtx × Bool :=
  let off0 := (abs_addr + U32 - ctx.buffer_start_addr) % U32
  let count := payload.length
  let init :=
    if ctx.buffer_data_len = 0 then
      ({ ctx with buffer_start_addr := abs_addr }, 0, false)
    else if abs_addr < ctx.buffer_start_addr ∨
        (off0 + count) % U32 > PAGE_BUFFER_SIZE then
      ({ (flush_buffer ctx flashRes).1 with buffer_start_addr := abs_addr },
        0, true)
    else (ctx, off0, false)
  let ctx1 := init.1
  let off := init.2.1
  let buf1 := write_payload ctx1.page_buffer off payload
  let new_end := (off + count) % U32
  let len1 :=
    if new_end > ctx1.buffer_data_len then new_end else ctx1.buffer_data_len
  ({ ctx1 with page_buffer := buf1, buffer_data_len := len1 }, init.2.2)

/-! ## BLE central GATT discovery (ble_connection.c, src/unnamed/part_006) -/

/-- NimBLE characteristic property bit (host/ble_gatt.h, external stack). -/
def BLE_GATT_CHR_PROP_WRITE_NO_RSP : Nat := 0x04

/-- NimBLE characteristic property bit (host/ble_gatt.h, external stack). -/
def BLE_GATT_CHR_PROP_WRITE : Nat := 0x08

/-- NimBLE characteristic property bit (host/ble_gatt.h, external stack). -/
def BLE_GATT_CHR_PROP_NOTIFY : Nat := 0x10

/-- NimBLE characteristic property bit (host/ble_gatt.h, external stack). -/
def BLE_GATT_CHR_PROP_INDICATE : Nat := 0x20

/-- The discovery fields of the uart connection state in part_006: TX and RX
value handles, the recorded TX properties, and the CCCD handle (0 while not
found, as for the C zero-initialized statics). -/
structure UartConn where
  tx_val : Nat
  tx_props : Nat
  rx_val : Nat
  tx_cccd : Nat
  deriving DecidableEq, Repr

/-- part_006 on_disc_chr, success case (lines 225-241): a characteristic with
NOTIFY or INDICATE becomes TX and its properties are recorded; one with WRITE
or WRITE_NO_RSP becomes RX. -/
def on_disc_chr (st : UartConn) (props val_handle : Nat) : UartConn :=
  let st1 :=
    if props &&& (BLE_GATT_CHR_PROP_NOTIFY ||| BLE_GATT_CHR_PROP_INDICATE)
        ≠ 0 then
      { st with tx_val := val_handle, tx_props := props }
    else st
  if props &&& (BLE_GATT_CHR_PROP_WRITE ||| BLE_GATT_CHR_PROP_WRITE_NO_RSP)
      ≠ 0 then
    { st1 with rx_val := val_handle }
  else st1

/-- part_006 on_disc_dsc, success case (lines 265-271): the descriptor with
16-bit UUID 0x2902 is recorded as the CCCD. -/
def on_disc_dsc_found (st : UartConn) (uuid16 handle : Nat) : UartConn :=
  if uuid16 = 0x2902 then { st with tx_cccd := handle } else st

/-- part_006 on_disc_dsc, BLE_HS_EDONE case (lines 273-289): when a CCCD was
found, ble_gattc_write_flat is issued to it with the fixed two-byte value
{0x01, 0x00}; with no CCCD nothing is written.  The result is the (handle,
value) of the write, if any. -/
def on_disc_dsc_done (st : UartConn) : Option (Nat × List Nat) :=
  if st.tx_cccd = 0 then none
  else some (st.tx_cccd, [0x01, 0x00])

/-- Modelled from the spec: the CCCD value the claim prescribes, chosen from
the recorded TX properties - {0x01, 0x00} to subscribe to notify, {0x02,
0x00} when only indicate is offered. -/
def cccd_value_claim (tx_props : Nat) : List Nat :=
  if tx_props &&& BLE_GATT_CHR_PROP_NOTIFY ≠ 0 then [0x01, 0x00]
  else [0x02, 0x00]

/-! ## TCP fan-out proxy (tcp_proxy.c) -/

/-- Observable steps of tcp_forward_ble_data. -/
inductive FanEv
  | lockEv
  | unlockEv
  | sendEv (fd len : Nat)
  | closeEv (idx : Nat)
  deriving DecidableEq, Repr

/-- Recognizer for send events. -/
def isSendEv : FanEv → Bool
  | .sendEv _ _ => true
  | _ => false

/-- tcp_proxy.c tcp_forward_ble_data, client loop (lines 59-72): every live
slot gets one send of the full len bytes; a negative send return closes the
slot, a short send only logs.  `sendRes i` models the lwIP send return for
slot i.  Returns the updated slots and the events in order. -/
def fan_loop (len : Nat) (sendRes : Nat → Int) :
    Nat → List (Option Nat) → List (Option Nat) × List FanEv
  | _, [] => ([], [])
  | i, none :: rest =>
    let k := fan_loop len sendRes (i + 1) rest
    (none :: k.1, k.2)
  | i, some fd :: rest =>
    let n := sendRes i
    let k := fan_loop len sendRes (i + 1) rest
    if n < 0 then (none :: k.1, .sendEv fd len :: .closeEv i :: k.2)
    else (some fd :: k.1, .sendEv fd len :: k.2)

/-- tcp_proxy.c tcp_forward_ble_data (lines 47-77).  A null data pointer is
not representable; the `!proxy_running || !data || len == 0` guard is the
running flag and the len = 0 case, returning without touching the client
set.  Otherwise the client-set mutex is taken, every live client is sent the
full notification once, and the mutex is released. -/
def tcp_forward_ble_data (running : Bool) (len : Nat)
    (clients : List (Option Nat)) (sendRes : Nat → Int) :
    List (Option Nat) × List FanEv :=
  if running = false ∨ len = 0 then (clients, [])
  else
    let k := fan_loop len sendRes 0 clients
    (k.1, .lockEv :: k.2 ++ [.unlockEv])

/-- tcp_proxy.c tcp_task, recv branch (lines 264-276): the chunk size for
TCP-to-BLE forwarding is ble_att_mtu minus 3 capped at 244 when a live
connection is found, and the default of 20 otherwise (`none`). -/
def tcp_mtu_size (attMtu : Option Nat) : Nat :=
  match attMtu with
  | some m => let s := m - 3; if s > 244 then 244 else s
  | none => 20

/-- Observable steps of the TCP-to-BLE chunk loop. -/
inductive TcpEv
  | bleSend (off len : Nat)
  | pause5ms
  deriving DecidableEq, Repr

/-- Recognizer for BLE send-capability calls. -/
def isBleSend : TcpEv → Bool
  | .bleSend _ _ => true
  | _ => false

/-- tcp_proxy.c tcp_task, chunk loop (lines 278-289) for one recv of `n`
bytes with chunk size `c`: while bytes remain and the BLE link is up, the
next min(remaining, c) bytes go to ble_proxy_send_data; a failed send breaks
out; a 5 ms pause separates chunks when more remain.  `conn k` and `sendOk k`
are the ble_proxy_is_connected and send outcomes at iteration k.  The fuel
bounds the iterations; n is enough fuel whenever c is at least 1. -/
def tcp_chunk_loop (n c : Nat) (conn sendOk : Nat → Bool) :
    Nat → Nat → Nat → List TcpEv
  | _, _, 0 => []
  | k, offset, fuel + 1 =>
    if offset < n ∧ conn k then
      let chunk := min (n - offset) c
      if sendOk k = false then [.bleSend offset chunk]
      else if offset + chunk < n then
        .bleSend offset chunk :: .pause5ms ::
          tcp_chunk_loop n c conn sendOk (k + 1) (offset + chunk) fuel
      else
        .bleSend offset chunk ::
          tcp_chunk_loop n c conn sendOk (k + 1) (offset + chunk) fuel
    else []

/-- The chunk loop as entered for one recv of n bytes. -/
def tcp_recv_chunks (n : Nat) (attMtu : Option Nat) (conn sendOk : Nat → Bool) :
    List TcpEv :=
  tcp_chunk_loop n (tcp_mtu_size attMtu) conn sendOk 0 0 n

/-! ## Concrete fixtures used by witnesses and counterexamples -/

/-- A device on which every transaction succeeds and every flash word reads
erased; CONFIG reads back 1 (the WEN mode bits). -/
def exDev : NvmcDev where
  readyBefore := .ok
  cfgWrite := fun _ => .ok
  cfgRead := fun _ => (.ok, 1)
  memWrite := fun _ _ => .ok
  memRead := fun _ _ => (.ok, 0xFFFFFFFF)
  pollReady := fun _ => (.ok, 1)
  waitReady := fun _ => .ok
  verifyRead := fun _ _ => (.ok, 0xFFFFFFFF)

/-- A connection state as produced by discovering an indicate-only TX
characteristic (properties 0x20) and then its CCCD at handle 9. -/
def uartIndicateOnly : UartConn :=
  on_disc_dsc_found
    (on_disc_chr ⟨0, 0, 0, 0⟩ BLE_GATT_CHR_PROP_INDICATE 7) 0x2902 9

/-- A coalescing buffer holding 16 bytes that start at 0x26000. -/
def ex1ctx : UploadCtx :=
  { buffer_start_addr := 0x26000, buffer_data_len := 16,
    page_buffer := fun _ => 0xFF }

/-- An ERASEALLSTATUS response stream that stays busy for the first 100 polls
(the whole 5000 ms budget of the code) and reads 0 from then on, i.e. the
erase completes after 5 s, well inside the 120 s budget the claim states. -/
def ex4reads : Nat → EspErr × Nat :=
  fun i => if i < 100 then (.ok, 1) else (.ok, 0)

/-! ## Theorems -/

/-- C9: on a raw SWD read the output word is written only when the ACK is OK
and the received parity equals the computed parity of the 32 data bits; a
parity mismatch reports FAULT and any non-OK ACK is returned as is, the
callers word staying unchanged in both failure cases. -/
theorem swd_transfer_raw_read_effect (ack value parityBit dataIn : Nat) :
    ((swd_transfer_raw true ack value parityBit dataIn).2 ≠ dataIn →
      ack = SWD_ACK_OK ∧ parityBit = parity32 value ∧
        swd_transfer_raw true ack value parityBit dataIn =
          (SWD_ACK_OK, value))
    ∧ (ack = SWD_ACK_OK → parityBit ≠ parity32 value →
        swd_transfer_raw true ack value parityBit dataIn =
          (SWD_ACK_FAULT, dataIn))
    ∧ (ack ≠ SWD_ACK_OK →
        swd_transfer_raw true ack value parityBit dataIn = (ack, dataIn)) := by
  unfold swd_transfer_raw
  by_cases hok : ack = SWD_ACK_OK
  · by_cases hp : parityBit = parity32 value
    · simp [hok, hp]
    · simp [hok, hp]
  · simp [hok]

/-- C9 witness: a WAIT ACK is passed through with the word untouched, and an
OK ACK with a wrong parity bit is reported as FAULT with the word
untouched. -/
theorem swd_transfer_raw_read_effect_witness :
    swd_transfer_raw true SWD_ACK_WAIT 0 0 7 = (SWD_ACK_WAIT, 7)
    ∧ swd_transfer_raw true SWD_ACK_OK 5 1 7 = (SWD_ACK_FAULT, 7) :=
  ⟨(swd_transfer_raw_read_effect SWD_ACK_WAIT 0 0 7).2.2 (by decide),
   (swd_transfer_raw_read_effect SWD_ACK_OK 5 1 7).2.1 rfl (by decide)⟩

/-- C7 counterexample: with an indicate-only TX characteristic recorded
(properties 0x20) and a CCCD found at handle 9, the code writes {0x01, 0x00},
while the claim prescribes {0x02, 0x00} for indicate-only. -/
theorem cccd_write_value_counterexample :
    uartIndicateOnly.tx_props = BLE_GATT_CHR_PROP_INDICATE
    ∧ on_disc_dsc_done uartIndicateOnly = some (9, [0x01, 0x00])
    ∧ cccd_value_claim uartIndicateOnly.tx_props = [0x02, 0x00]
    ∧ ([0x01, 0x00] : List Nat) ≠ [0x02, 0x00] := by
  refine ⟨by decide, by decide, by decide, by decide⟩

/-- C7 amended: whenever descriptor discovery has found the CCCD, the value
written to it is the fixed {0x01, 0x00}, independent of the recorded TX
characteristic properties. -/
theorem cccd_write_value_fixed (st : UartConn) (h : st.tx_cccd ≠ 0) :
    on_disc_dsc_done st = some (st.tx_cccd, [0x01, 0x00]) := by
  unfold on_disc_dsc_done
  simp [h]

/-- C7 amended witness: the indicate-only fixture gets {0x01, 0x00}. -/
theorem cccd_write_value_fixed_witness :
    uartIndicateOnly.tx_cccd ≠ 0
    ∧ on_disc_dsc_done uartIndicateOnly =
        some (uartIndicateOnly.tx_cccd, [0x01, 0x00]) :=
  ⟨by decide, cccd_write_value_fixed uartIndicateOnly (by decide)⟩

/-- C5 counterexample: a buffer program of 0 bytes returns
ESP_ERR_INVALID_ARG, not success, though it indeed issues no NVMC access. -/
theorem write_buffer_zero_counterexample :
    swd_flash_write_buffer exDev 0x26000 [] = (.invalidArg, [])
    ∧ EspErr.invalidArg ≠ EspErr.ok := by
  refine ⟨rfl, by decide⟩

/-- C5 amended: a buffer program of 0 bytes returns ESP_ERR_INVALID_ARG (an
error, not success) and performs no NVMC access at all: no CONFIG change, no
memory write, no READY wait. -/
theorem write_buffer_zero_size (dev : NvmcDev) (addr : Nat) :
    swd_flash_write_buffer dev addr [] = (.invalidArg, []) := by
  unfold swd_flash_write_buffer
  simp

/-- C10: a page erase at or beyond the 1 MiB flash size is rejected as
ESP_ERR_INVALID_ARG with no target interaction (the result does not depend on
the device at all), and below the flash size erasing addr is identical to
erasing its page base addr - addr % 4096. -/
theorem erase_page_range_and_alignment (dev : NvmcDev) (addr : Nat) :
    (NRF52_FLASH_SIZE ≤ addr →
      swd_flash_erase_page dev addr = (.invalidArg, []))
    ∧ (addr < NRF52_FLASH_SIZE →
        swd_flash_erase_page dev addr =
          swd_flash_erase_page dev (addr - addr % NRF52_FLASH_PAGE_SIZE)) := by
  constructor
  · intro h
    unfold swd_flash_erase_page
    rw [if_pos h]
  · intro h
    have hp : (addr - addr % NRF52_FLASH_PAGE_SIZE) % NRF52_FLASH_PAGE_SIZE
        = 0 := by
      have hd := Nat.div_add_mod addr NRF52_FLASH_PAGE_SIZE
      have h2 : addr - addr % NRF52_FLASH_PAGE_SIZE =
          NRF52_FLASH_PAGE_SIZE * (addr / NRF52_FLASH_PAGE_SIZE) := by omega
      rw [h2]
      exact Nat.mul_mod_right _ _
    have ha : ¬ NRF52_FLASH_SIZE ≤ addr := not_le.mpr h
    have ha2 : ¬ NRF52_FLASH_SIZE ≤ addr - addr % NRF52_FLASH_PAGE_SIZE :=
      not_le.mpr (lt_of_le_of_lt (Nat.sub_le _ _) h)
    unfold swd_flash_erase_page
    rw [if_neg ha, if_neg ha2, hp, Nat.sub_zero]

/-- C10 witness: 0x00100000 is rejected, and erasing 0x26004 equals erasing
its page base 0x26000. -/
theorem erase_page_range_and_alignment_witness :
    swd_flash_erase_page exDev 0x00100000 = (.invalidArg, [])
    ∧ swd_flash_erase_page exDev 0x26004 = swd_flash_erase_page exDev 0x26000 :=
  ⟨(erase_page_range_and_alignment exDev 0x00100000).1 (by decide),
   ((erase_page_range_and_alignment exDev 0x26004).2 (by decide)).trans
     (congrArg _ (by decide))⟩

/-- A sampled word passes verification: its first read succeeds and either
already shows 0xFFFFFFFF or the re-read succeeds and shows 0xFFFFFFFF. -/
def verify_pass (read : Nat → Bool → EspErr × Nat) (a : Nat) : Prop :=
  (read a false).1 = .ok ∧
    ((read a false).2 = 0xFFFFFFFF ∨
      ((read a true).1 = .ok ∧ (read a true).2 = 0xFFFFFFFF))

theorem verify_word_mem (read : Nat → Bool → EspErr × Nat) (a : Nat) :
    ∀ p ∈ (verify_word read a).2, p.1 = a := by
  intro p hp
  unfold verify_word at hp
  by_cases h1 : (read a false).1 = EspErr.ok
  · by_cases h2 : (read a false).2 = 0xFFFFFFFF
    · simp [h1, h2] at hp
      simp [hp]
    · by_cases h3 : (read a true).1 = EspErr.ok
      · by_cases h4 : (read a true).2 = 0xFFFFFFFF
        · simp [h1, h2, h3, h4] at hp
          rcases hp with rfl | rfl <;> rfl
        · simp [h1, h2, h3, h4] at hp
          rcases hp with rfl | rfl <;> rfl
      · simp [h1, h2, h3] at hp
        rcases hp with rfl | rfl <;> rfl
  · simp [h1] at hp
    simp [hp]

theorem verify_word_ok_iff (read : Nat → Bool → EspErr × Nat) (a : Nat) :
    (verify_word read a).1 = .ok ↔ verify_pass read a := by
  unfold verify_word verify_pass
  by_cases h1 : (read a false).1 = EspErr.ok
  · by_cases h2 : (read a false).2 = 0xFFFFFFFF
    · simp [h1, h2]
    · by_cases h3 : (read a true).1 = EspErr.ok
      · by_cases h4 : (read a true).2 = 0xFFFFFFFF
        · simp [h1, h2, h3, h4]
        · simp [h1, h2, h3, h4]
      · simp [h1, h2, h3]
  · simp [h1]

theorem verify_word_first (read : Nat → Bool → EspErr × Nat) (a : Nat) :
    (a, false) ∈ (verify_word read a).2 := by
  unfold verify_word
  by_cases h1 : (read a false).1 = EspErr.ok
  · by_cases h2 : (read a false).2 = 0xFFFFFFFF
    · simp [h1, h2]
    · by_cases h3 : (read a true).1 = EspErr.ok
      · by_cases h4 : (read a true).2 = 0xFFFFFFFF
        · simp [h1, h2, h3, h4]
        · simp [h1, h2, h3, h4]
      · simp [h1, h2, h3]
  · simp [h1]

theorem verify_word_fail (read : Nat → Bool → EspErr × Nat) (a : Nat)
    (hr : ∀ b, (read a b).1 ≠ .fail) :
    (verify_word read a).1 = .fail →
      (read a false).1 = .ok ∧ (read a false).2 ≠ 0xFFFFFFFF ∧
        (read a true).1 = .ok ∧ (read a true).2 ≠ 0xFFFFFFFF := by
  intro hf
  unfold verify_word at hf
  by_cases h1 : (read a false).1 = EspErr.ok
  · by_cases h2 : (read a false).2 = 0xFFFFFFFF
    · simp [h1, h2] at hf
    · by_cases h3 : (read a true).1 = EspErr.ok
      · by_cases h4 : (read a true).2 = 0xFFFFFFFF
        · simp [h1, h2, h3, h4] at hf
        · exact ⟨h1, h2, h3, h4⟩
      · simp [h1, h2, h3] at hf
        exact absurd hf (hr true)
  · simp [h1] at hf
    exact absurd hf (hr false)

theorem erase_verify_go_mem (read : Nat → Bool → EspErr × Nat) (addr : Nat) :
    ∀ offs : List Nat, ∀ p ∈ (erase_verify_go read addr offs).2,
      p.1 ∈ offs.map (addr + ·) := by
  intro offs
  induction offs with
  | nil => intro p hp; simp [erase_verify_go] at hp
  | cons off rest ih =>
    intro p hp
    simp only [erase_verify_go] at hp
    by_cases hw : (verify_word read (addr + off)).1 = EspErr.ok
    · rw [if_neg (not_not_intro hw)] at hp
      rcases List.mem_append.mp hp with h | h
      · have := verify_word_mem read (addr + off) p h
        simp [this]
      · simp only [List.map_cons, List.mem_cons]
        exact Or.inr (ih p h)
    · rw [if_pos hw] at hp
      have := verify_word_mem read (addr + off) p hp
      simp [this]

theorem erase_verify_go_ok_iff (read : Nat → Bool → EspErr × Nat)
    (addr : Nat) :
    ∀ offs : List Nat, (erase_verify_go read addr offs).1 = .ok ↔
      ∀ off ∈ offs, verify_pass read (addr + off) := by
  intro offs
  induction offs with
  | nil => simp [erase_verify_go]
  | cons off rest ih =>
    simp only [erase_verify_go]
    by_cases hw : (verify_word read (addr + off)).1 = EspErr.ok
    · rw [if_neg (not_not_intro hw)]
      constructor
      · intro h o ho
        rcases List.mem_cons.mp ho with rfl | ho2
        · exact (verify_word_ok_iff read (addr + o)).mp hw
        · exact (ih.mp h) o ho2
      · intro h
        exact ih.mpr fun o ho => h o (List.mem_cons_of_mem _ ho)
    · rw [if_pos hw]
      constructor
      · intro h
        exact absurd h hw
      · intro h
        exact absurd ((verify_word_ok_iff read (addr + off)).mpr
          (h off (List.mem_cons_self _ _))) hw

theorem erase_verify_go_ok_trace (read : Nat → Bool → EspErr × Nat)
    (addr : Nat) :
    ∀ offs : List Nat, (erase_verify_go read addr offs).1 = .ok →
      ∀ off ∈ offs,
        (addr + off, false) ∈ (erase_verify_go read addr offs).2 := by
  intro offs
  induction offs with
  | nil => intro _ o ho; simp at ho
  | cons off rest ih =>
    intro hok o ho
    simp only [erase_verify_go] at hok ⊢
    by_cases hw : (verify_word read (addr + off)).1 = EspErr.ok
    · rw [if_neg (not_not_intro hw)] at hok ⊢
      rcases List.mem_cons.mp ho with rfl | ho2
      · exact List.mem_append_left _ (verify_word_first read (addr + o))
      · exact List.mem_append_right _ (ih hok o ho2)
    · rw [if_pos hw] at hok
      exact absurd hok hw

theorem erase_verify_go_fail (read : Nat → Bool → EspErr × Nat) (addr : Nat)
    (hr : ∀ a b, (read a b).1 ≠ .fail) :
    ∀ offs : List Nat, (erase_verify_go read addr offs).1 = .fail →
      ∃ off ∈ offs, (read (addr + off) false).2 ≠ 0xFFFFFFFF ∧
        (read (addr + off) true).1 = .ok ∧
        (read (addr + off) true).2 ≠ 0xFFFFFFFF := by
  intro offs
  induction offs with
  | nil =>
    intro h
    simp only [erase_verify_go] at h
    exact absurd h (by decide)
  | cons off rest ih =>
    intro hf
    simp only [erase_verify_go] at hf
    by_cases hw : (verify_word read (addr + off)).1 = EspErr.ok
    · rw [if_neg (not_not_intro hw)] at hf
      obtain ⟨o, ho, hrest⟩ := ih hf
      exact ⟨o, List.mem_cons_of_mem _ ho, hrest⟩
    · rw [if_pos hw] at hf
      obtain ⟨_, h2, h3, h4⟩ := verify_word_fail read (addr + off)
        (fun b => hr (addr + off) b) hf
      exact ⟨off, List.mem_cons_self _ _, h2, h3, h4⟩

/-- C2: the erase verification samples exactly the word offsets 0, 4, 8 and
page_size - 4 of the erased page: every read it issues is at one of those
four addresses; it succeeds exactly when each of the four words passes (reads
0xFFFFFFFF at once, or at the re-read); on success all four were sampled; and
a verification failure (ESP_FAIL, assuming the reads themselves do not fail
with that code) happens only at a sampled word whose two reads both differ
from 0xFFFFFFFF. -/
theorem erase_verify_four_offsets (read : Nat → Bool → EspErr × Nat)
    (addr : Nat) :
    (∀ p ∈ (erase_verify read addr).2,
      p.1 = addr ∨ p.1 = addr + 4 ∨ p.1 = addr + 8 ∨
        p.1 = addr + (NRF52_FLASH_PAGE_SIZE - 4))
    ∧ ((erase_verify read addr).1 = .ok ↔
        (verify_pass read addr ∧ verify_pass read (addr + 4) ∧
          verify_pass read (addr + 8) ∧
          verify_pass read (addr + (NRF52_FLASH_PAGE_SIZE - 4))))
    ∧ ((erase_verify read addr).1 = .ok →
        ((addr, false) ∈ (erase_verify read addr).2 ∧
          (addr + 4, false) ∈ (erase_verify read addr).2 ∧
          (addr + 8, false) ∈ (erase_verify read addr).2 ∧
          (addr + (NRF52_FLASH_PAGE_SIZE - 4), false) ∈
            (erase_verify read addr).2))
    ∧ ((∀ a b, (read a b).1 ≠ .fail) → (erase_verify read addr).1 = .fail →
        ∃ a, (a = addr ∨ a = addr + 4 ∨ a = addr + 8 ∨
            a = addr + (NRF52_FLASH_PAGE_SIZE - 4)) ∧
          (read a false).2 ≠ 0xFFFFFFFF ∧ (read a true).1 = .ok ∧
          (read a true).2 ≠ 0xFFFFFFFF) := by
  refine ⟨?_, ?_, ?_, ?_⟩
  · intro p hp
    have h := erase_verify_go_mem read addr _ p hp
    simpa using h
  · rw [erase_verify, erase_verify_go_ok_iff]
    constructor
    · intro h
      refine ⟨?_, ?_, ?_, ?_⟩
      · simpa using h 0 (by simp)
      · exact h 4 (by simp)
      · exact h 8 (by simp)
      · exact h (NRF52_FLASH_PAGE_SIZE - 4) (by simp)
    · rintro ⟨ha, hb, hc, hd⟩ off hoff
      simp only [List.mem_cons, List.not_mem_nil, or_false] at hoff
      rcases hoff with rfl | rfl | rfl | rfl
      · simpa using ha
      · exact hb
      · exact hc
      · exact hd
  · intro hok
    have h := erase_verify_go_ok_trace read addr _ hok
    refine ⟨?_, ?_, ?_, ?_⟩
    · simpa using h 0 (by simp)
    · exact h 4 (by simp)
    · exact h 8 (by simp)
    · exact h (NRF52_FLASH_PAGE_SIZE - 4) (by simp)
  · intro hr hfl
    obtain ⟨off, hoff, h2, h3, h4⟩ :=
      erase_verify_go_fail read addr hr _ hfl
    simp only [List.mem_cons, List.not_mem_nil, or_false] at hoff
    refine ⟨addr + off, ?_, h2, h3, h4⟩
    rcases hoff with rfl | rfl | rfl | rfl
    · left; exact Nat.add_zero addr
    · right; left; rfl
    · right; right; left; rfl
    · right; right; right; rfl

/-- C2 witness: on the all-erased device the verification of page 0x26000
succeeds, having sampled all four offsets, the last at 0x26000 + 4092. -/
theorem erase_verify_four_offsets_witness :
    (erase_verify exDev.verifyRead 0x26000).1 = .ok
    ∧ (0x26000 + (NRF52_FLASH_PAGE_SIZE - 4), false) ∈
        (erase_verify exDev.verifyRead 0x26000).2 :=
  have hok : (erase_verify exDev.verifyRead 0x26000).1 = .ok :=
    ((erase_verify_four_offsets exDev.verifyRead 0x26000).2.1).mpr
      (by refine ⟨?_, ?_, ?_, ?_⟩ <;> exact ⟨rfl, Or.inl rfl⟩)
  ⟨hok,
    ((erase_verify_four_offsets exDev.verifyRead 0x26000).2.2.1 hok).2.2.2⟩

theorem dp_read_aux_count (acks : Nat → Nat) :
    ∀ fuel i, ((dp_read_aux acks i fuel).2.countP isTransfer) ≤ fuel := by
  intro fuel
  induction fuel with
  | zero => intro i; simp [dp_read_aux]
  | succ n ih =>
    intro i
    simp only [dp_read_aux]
    by_cases h1 : acks i = SWD_ACK_OK
    · rw [if_pos h1]
      simp [List.countP_cons, isTransfer]
    · rw [if_neg h1]
      by_cases h2 : acks i = SWD_ACK_WAIT
      · rw [if_pos h2]
        have := ih (i + 1)
        simp only [List.countP_cons, isTransfer]
        simp [isTransfer] at this ⊢
        omega
      · rw [if_neg h2]
        by_cases h3 : acks i = SWD_ACK_FAULT
        · rw [if_pos h3]
          have := ih (i + 1)
          simp only [List.countP_cons, isTransfer]
          simp [isTransfer] at this ⊢
          omega
        · rw [if_neg h3]
          have := ih (i + 1)
          simp only [List.countP_cons, isTransfer]
          simp [isTransfer] at this ⊢
          omega

theorem dp_read_aux_ok_iff (acks : Nat → Nat) :
    ∀ fuel i, (dp_read_aux acks i fuel).1 = true ↔
      ∃ k < fuel, acks (i + k) = SWD_ACK_OK := by
  intro fuel
  induction fuel with
  | zero => intro i; simp [dp_read_aux]
  | succ n ih =>
    intro i
    simp only [dp_read_aux]
    by_cases h1 : acks i = SWD_ACK_OK
    · rw [if_pos h1]
      simp only [true_iff]
      exact ⟨0, by omega, by simpa using h1⟩
    · have key : (dp_read_aux acks (i + 1) n).1 = true ↔
          ∃ k < n + 1, acks (i + k) = SWD_ACK_OK := by
        rw [ih (i + 1)]
        constructor
        · rintro ⟨k, hk, ha⟩
          refine ⟨k + 1, by omega, ?_⟩
          rw [show i + (k + 1) = i + 1 + k by omega]
          exact ha
        · rintro ⟨k, hk, ha⟩
          match k with
          | 0 => exact absurd (by simpa using ha) h1
          | m + 1 =>
            refine ⟨m, by omega, ?_⟩
            rw [show i + 1 + m = i + (m + 1) by omega]
            exact ha
      rw [if_neg h1]
      by_cases h2 : acks i = SWD_ACK_WAIT
      · rw [if_pos h2]; exact key
      · rw [if_neg h2]
        by_cases h3 : acks i = SWD_ACK_FAULT
        · rw [if_pos h3]; exact key
        · rw [if_neg h3]; exact key

theorem dp_read_aux_mem_transfer (acks : Nat → Nat) :
    ∀ fuel i j, DapEvent.transfer j ∈ (dp_read_aux acks i fuel).2 ↔
      (i ≤ j ∧ j < i + fuel ∧
        ∀ k, i ≤ k → k < j → acks k ≠ SWD_ACK_OK) := by
  intro fuel
  induction fuel with
  | zero =>
    intro i j
    simp only [dp_read_aux, List.not_mem_nil, false_iff]
    rintro ⟨h1, h2, -⟩
    omega
  | succ n ih =>
    intro i j
    simp only [dp_read_aux]
    by_cases h1 : acks i = SWD_ACK_OK
    · rw [if_pos h1]
      simp only [List.mem_singleton, DapEvent.transfer.injEq]
      constructor
      · rintro rfl
        exact ⟨le_refl _, by omega, fun k hk1 hk2 => absurd hk2 (by omega)⟩
      · rintro ⟨hij, -, hnone⟩
        by_contra hne
        exact hnone i (le_refl _) (by omega) h1
    · have tailiff : DapEvent.transfer j ∈ (dp_read_aux acks (i + 1) n).2 ↔
          (i + 1 ≤ j ∧ j < i + 1 + n ∧
            ∀ k, i + 1 ≤ k → k < j → acks k ≠ SWD_ACK_OK) := ih (i + 1) j
      have shift : (DapEvent.transfer j = DapEvent.transfer i ∨
            DapEvent.transfer j ∈ (dp_read_aux acks (i + 1) n).2) ↔
          (i ≤ j ∧ j < i + (n + 1) ∧
            ∀ k, i ≤ k → k < j → acks k ≠ SWD_ACK_OK) := by
        constructor
        · rintro (hj | hj)
          · cases hj
            exact ⟨le_refl _, by omega,
              fun k hk1 hk2 => absurd hk2 (by omega)⟩
          · obtain ⟨hj1, hj2, hj3⟩ := tailiff.mp hj
            refine ⟨by omega, by omega, fun k hk1 hk2 => ?_⟩
            rcases Nat.eq_or_lt_of_le hk1 with rfl | hlt
            · exact h1
            · exact hj3 k (by omega) hk2
        · rintro ⟨hj1, hj2, hj3⟩
          rcases Nat.eq_or_lt_of_le hj1 with rfl | hlt
          · exact Or.inl rfl
          · exact Or.inr (tailiff.mpr ⟨by omega, by omega,
              fun k hk1 hk2 => hj3 k (by omega) hk2⟩)
      rw [if_neg h1]
      by_cases h2 : acks i = SWD_ACK_WAIT
      · rw [if_pos h2]
        simp only [List.mem_cons]
        rw [show (DapEvent.transfer j = DapEvent.delay1ms ∨
            DapEvent.transfer j ∈ (dp_read_aux acks (i + 1) n).2) ↔
            DapEvent.transfer j ∈ (dp_read_aux acks (i + 1) n).2 by simp]
        exact shift
      · rw [if_neg h2]
        by_cases h3 : acks i = SWD_ACK_FAULT
        · rw [if_pos h3]
          simp only [List.mem_cons]
          rw [show (DapEvent.transfer j = DapEvent.abortWrite DP_ABORT 0x1E ∨
              DapEvent.transfer j ∈ (dp_read_aux acks (i + 1) n).2) ↔
              DapEvent.transfer j ∈ (dp_read_aux acks (i + 1) n).2 by simp]
          exact shift
        · rw [if_neg h3]
          simp only [List.mem_cons]
          exact shift

theorem dp_read_aux_infix_wait (acks : Nat → Nat) :
    ∀ fuel i j, acks j = SWD_ACK_WAIT →
      DapEvent.transfer j ∈ (dp_read_aux acks i fuel).2 →
      [DapEvent.transfer j, DapEvent.delay1ms] <:+: (dp_read_aux acks i fuel).2 := by
  intro fuel
  induction fuel with
  | zero => intro i j _ hm; simp [dp_read_aux] at hm
  | succ n ih =>
    intro i j hw hm
    simp only [dp_read_aux] at hm ⊢
    by_cases h1 : acks i = SWD_ACK_OK
    · rw [if_pos h1] at hm
      simp only [List.mem_singleton, DapEvent.transfer.injEq] at hm
      subst hm
      rw [h1] at hw
      exact absurd hw (by decide)
    · rw [if_neg h1] at hm ⊢
      by_cases h2 : acks i = SWD_ACK_WAIT
      · rw [if_pos h2] at hm ⊢
        by_cases hj : j = i
        · subst hj
          exact ⟨[], (dp_read_aux acks (j + 1) n).2, by simp⟩
        · have hm2 : DapEvent.transfer j ∈ (dp_read_aux acks (i + 1) n).2 := by
            simp only [List.mem_cons, DapEvent.transfer.injEq] at hm
            rcases hm with h | h | h
            · exact absurd h hj
            · exact absurd h (by simp)
            · exact h
          exact List.infix_cons (List.infix_cons (ih (i + 1) j hw hm2))
      · rw [if_neg h2] at hm ⊢
        by_cases h3 : acks i = SWD_ACK_FAULT
        · rw [if_pos h3] at hm ⊢
          have hm2 : DapEvent.transfer j ∈ (dp_read_aux acks (i + 1) n).2 := by
            simp only [List.mem_cons, DapEvent.transfer.injEq] at hm
            rcases hm with h | h | h
            · subst h; rw [h3] at hw; exact absurd hw (by decide)
            · exact absurd h (by simp)
            · exact h
          exact List.infix_cons (List.infix_cons (ih (i + 1) j hw hm2))
        · rw [if_neg h3] at hm ⊢
          have hm2 : DapEvent.transfer j ∈ (dp_read_aux acks (i + 1) n).2 := by
            simp only [List.mem_cons, DapEvent.transfer.injEq] at hm
            rcases hm with h | h
            · subst h; rw [hw] at h2; exact absurd rfl h2
            · exact h
          exact List.infix_cons (ih (i + 1) j hw hm2)

theorem dp_read_aux_infix_fault (acks : Nat → Nat) :
    ∀ fuel i j, acks j = SWD_ACK_FAULT →
      DapEvent.transfer j ∈ (dp_read_aux acks i fuel).2 →
      [DapEvent.transfer j, DapEvent.abortWrite DP_ABORT 0x1E] <:+:
        (dp_read_aux acks i fuel).2 := by
  intro fuel
  induction fuel with
  | zero => intro i j _ hm; simp [dp_read_aux] at hm
  | succ n ih =>
    intro i j hw hm
    simp only [dp_read_aux] at hm ⊢
    by_cases h1 : acks i = SWD_ACK_OK
    · rw [if_pos h1] at hm
      simp only [List.mem_singleton, DapEvent.transfer.injEq] at hm
      subst hm
      rw [h1] at hw
      exact absurd hw (by decide)
    · rw [if_neg h1] at hm ⊢
      by_cases h2 : acks i = SWD_ACK_WAIT
      · rw [if_pos h2] at hm ⊢
        have hm2 : DapEvent.transfer j ∈ (dp_read_aux acks (i + 1) n).2 := by
          simp only [List.mem_cons, DapEvent.transfer.injEq] at hm
          rcases hm with h | h | h
          · subst h; rw [h2] at hw; exact absurd hw (by decide)
          · exact absurd h (by simp)
          · exact h
        exact List.infix_cons (List.infix_cons (ih (i + 1) j hw hm2))
      · rw [if_neg h2] at hm ⊢
        by_cases h3 : acks i = SWD_ACK_FAULT
        · rw [if_pos h3] at hm ⊢
          by_cases hj : j = i
          · subst hj
            exact ⟨[], (dp_read_aux acks (j + 1) n).2, by simp⟩
          · have hm2 : DapEvent.transfer j ∈ (dp_read_aux acks (i + 1) n).2 := by
              simp only [List.mem_cons, DapEvent.transfer.injEq] at hm
              rcases hm with h | h | h
              · exact absurd h hj
              · exact absurd h (by simp)
              · exact h
            exact List.infix_cons (List.infix_cons (ih (i + 1) j hw hm2))
        · rw [if_neg h3] at hm ⊢
          have hm2 : DapEvent.transfer j ∈ (dp_read_aux acks (i + 1) n).2 := by
            simp only [List.mem_cons, DapEvent.transfer.injEq] at hm
            rcases hm with h | h
            · subst h; rw [hw] at h3; exact absurd rfl h3
            · exact h
          exact List.infix_cons (ih (i + 1) j hw hm2)

/-- C3: the DAP retry layer attempts the raw transaction at most 10 times; it
reports failure exactly when none of the 10 attempts got ACK OK; a WAIT is
followed immediately by the 1 ms yield, a FAULT immediately by the DP ABORT
write of 0x1E, and any failed attempt that still has budget is followed by
the next attempt. -/
theorem dp_retry_policy (acks : Nat → Nat) :
    ((swd_dp_read acks).2.countP isTransfer ≤ 10)
    ∧ ((swd_dp_read acks).1 = false ↔ ∀ i < 10, acks i ≠ SWD_ACK_OK)
    ∧ (∀ i, acks i = SWD_ACK_WAIT →
        DapEvent.transfer i ∈ (swd_dp_read acks).2 →
        [DapEvent.transfer i, DapEvent.delay1ms] <:+: (swd_dp_read acks).2)
    ∧ (∀ i, acks i = SWD_ACK_FAULT →
        DapEvent.transfer i ∈ (swd_dp_read acks).2 →
        [DapEvent.transfer i, DapEvent.abortWrite DP_ABORT 0x1E] <:+:
          (swd_dp_read acks).2)
    ∧ (∀ i, i + 1 < 10 → acks i ≠ SWD_ACK_OK →
        DapEvent.transfer i ∈ (swd_dp_read acks).2 →
        DapEvent.transfer (i + 1) ∈ (swd_dp_read acks).2) := by
  refine ⟨dp_read_aux_count acks 10 0, ?_, ?_, ?_, ?_⟩
  · have h := dp_read_aux_ok_iff acks 10 0
    simp only [swd_dp_read]
    constructor
    · intro hf i hi
      intro hok
      have : (dp_read_aux acks 0 10).1 = true :=
        h.mpr ⟨i, hi, by simpa using hok⟩
      rw [hf] at this
      cases this
    · intro hall
      by_contra hne
      have htrue : (dp_read_aux acks 0 10).1 = true := by
        cases hb : (dp_read_aux acks 0 10).1
        · exact absurd hb hne
        · rfl
      obtain ⟨k, hk, ha⟩ := h.mp htrue
      exact hall k hk (by simpa using ha)
  · intro i hw hm
    exact dp_read_aux_infix_wait acks 10 0 i hw hm
  · intro i hf hm
    exact dp_read_aux_infix_fault acks 10 0 i hf hm
  · intro i hi hne hm
    have h := dp_read_aux_mem_transfer acks 10 0
    obtain ⟨-, -, hnone⟩ := (h i).mp hm
    refine (h (i + 1)).mpr ⟨by omega, by omega, fun k hk1 hk2 => ?_⟩
    rcases Nat.lt_or_ge k i with hlt | hge
    · exact hnone k (by omega) hlt
    · have : k = i := by omega
      subst this
      exact hne

/-- An ACK stream whose first attempt gets WAIT, second gets FAULT, third
OK. -/
def ex3acks : Nat → Nat :=
  fun i => if i = 0 then SWD_ACK_WAIT else if i = 1 then SWD_ACK_FAULT
    else SWD_ACK_OK

/-- C3 witness: on that stream the run succeeds, the WAIT attempt is followed
by the yield, the FAULT attempt by the ABORT write, and attempt 1 follows the
failed attempt 0. -/
theorem dp_retry_policy_witness :
    ([DapEvent.transfer 0, DapEvent.delay1ms] <:+: (swd_dp_read ex3acks).2)
    ∧ ([DapEvent.transfer 1, DapEvent.abortWrite DP_ABORT 0x1E] <:+:
        (swd_dp_read ex3acks).2)
    ∧ DapEvent.transfer 1 ∈ (swd_dp_read ex3acks).2 :=
  ⟨(dp_retry_policy ex3acks).2.2.1 0 (by decide) (by decide),
   (dp_retry_policy ex3acks).2.2.2.1 1 (by decide) (by decide),
   (dp_retry_policy ex3acks).2.2.2.2 0 (by decide) (by decide) (by decide)⟩

theorem mass_erase_poll_ok_iff (reads : Nat → EspErr × Nat) :
    ∀ fuel i, mass_erase_poll reads i fuel = .ok ↔
      ∃ k < fuel, (reads (i + k)).1 = .ok ∧ (reads (i + k)).2 = 0 := by
  intro fuel
  induction fuel with
  | zero =>
    intro i
    simp only [mass_erase_poll]
    constructor
    · intro h; exact absurd h (by decide)
    · rintro ⟨k, hk, -⟩; omega
  | succ n ih =>
    intro i
    simp only [mass_erase_poll]
    have shift : (∃ k < n, (reads (i + 1 + k)).1 = .ok ∧
        (reads (i + 1 + k)).2 = 0) → ∃ k < n + 1,
          (reads (i + k)).1 = .ok ∧ (reads (i + k)).2 = 0 := by
      rintro ⟨k, hk, ha⟩
      refine ⟨k + 1, by omega, ?_⟩
      rw [show i + (k + 1) = i + 1 + k by omega]
      exact ha
    by_cases h1 : (reads i).1 = EspErr.ok
    · by_cases h2 : (reads i).2 = 0
      · rw [if_neg (not_not_intro h1), if_pos h2]
        simp only [true_iff]
        exact ⟨0, by omega, by simpa using h1, by simpa using h2⟩
      · rw [if_neg (not_not_intro h1), if_neg h2, ih (i + 1)]
        constructor
        · exact shift
        · rintro ⟨k, hk, ha, hz⟩
          match k with
          | 0 => exact absurd (by simpa using hz) h2
          | m + 1 =>
            refine ⟨m, by omega, ?_⟩
            rw [show i + 1 + m = i + (m + 1) by omega]
            exact ⟨ha, hz⟩
    · rw [if_pos h1, ih (i + 1)]
      constructor
      · exact shift
      · rintro ⟨k, hk, ha, hz⟩
        match k with
        | 0 => exact absurd (by simpa using ha) h1
        | m + 1 =>
          refine ⟨m, by omega, ?_⟩
          rw [show i + 1 + m = i + (m + 1) by omega]
          exact ⟨ha, hz⟩

theorem mass_erase_poll_ok_or_timeout (reads : Nat → EspErr × Nat) :
    ∀ fuel i, mass_erase_poll reads i fuel = .ok ∨
      mass_erase_poll reads i fuel = .timeout := by
  intro fuel
  induction fuel with
  | zero => intro i; exact Or.inr rfl
  | succ n ih =>
    intro i
    simp only [mass_erase_poll]
    by_cases h1 : (reads i).1 = EspErr.ok
    · by_cases h2 : (reads i).2 = 0
      · rw [if_neg (not_not_intro h1), if_pos h2]
        exact Or.inl rfl
      · rw [if_neg (not_not_intro h1), if_neg h2]
        exact ih (i + 1)
    · rw [if_pos h1]
      exact ih (i + 1)

theorem approtect_poll_ok_iff (reads : Nat → EspErr × Nat) :
    ∀ fuel i, approtect_poll reads i fuel = .ok ↔
      ∃ k < fuel, (reads (i + k)).1 = .ok ∧ (reads (i + k)).2 = 0 ∧
        ∀ m < k, (reads (i + m)).1 = .ok ∧ (reads (i + m)).2 ≠ 0 := by
  intro fuel
  induction fuel with
  | zero =>
    intro i
    simp only [approtect_poll]
    constructor
    · intro h; exact absurd h (by decide)
    · rintro ⟨k, hk, -⟩; omega
  | succ n ih =>
    intro i
    simp only [approtect_poll]
    by_cases h1 : (reads i).1 = EspErr.ok
    · by_cases h2 : (reads i).2 = 0
      · rw [if_neg (not_not_intro h1), if_pos h2]
        simp only [true_iff]
        exact ⟨0, by omega, by simpa using h1, by simpa using h2,
          fun m hm => absurd hm (by omega)⟩
      · rw [if_neg (not_not_intro h1), if_neg h2, ih (i + 1)]
        constructor
        · rintro ⟨k, hk, ha, hz, hpre⟩
          refine ⟨k + 1, by omega, ?_, ?_, ?_⟩
          · rw [show i + (k + 1) = i + 1 + k by omega]; exact ha
          · rw [show i + (k + 1) = i + 1 + k by omega]; exact hz
          · intro m hm
            match m with
            | 0 => exact ⟨by simpa using h1, by simpa using h2⟩
            | l + 1 =>
              rw [show i + (l + 1) = i + 1 + l by omega]
              exact hpre l (by omega)
        · rintro ⟨k, hk, ha, hz, hpre⟩
          match k with
          | 0 => exact absurd (by simpa using hz) h2
          | m + 1 =>
            refine ⟨m, by omega, ?_, ?_, ?_⟩
            · rw [show i + 1 + m = i + (m + 1) by omega]; exact ha
            · rw [show i + 1 + m = i + (m + 1) by omega]; exact hz
            · intro l hl
              rw [show i + 1 + l = i + (l + 1) by omega]
              exact hpre (l + 1) (by omega)
    · rw [if_pos h1]
      constructor
      · intro h
        have := (reads i).1
        exact absurd h (by
          intro hc
          exact h1 (by rw [hc]))
      · rintro ⟨k, hk, ha, hz, hpre⟩
        match k with
        | 0 => exact absurd (by simpa using ha) h1
        | m + 1 => exact absurd (by simpa using (hpre 0 (by omega)).1) h1

/-- C4 amended: the ERASEALLSTATUS poll of the mass erase has a 5000 ms
budget at a 50 ms interval (100 polls, failed status reads also consuming an
iteration) and accepts exactly when some poll reads status 0 successfully;
otherwise it reports ESP_ERR_TIMEOUT, in which case the operation returns at
once with no further target interaction.  The disable-approtect variant polls
with a 1000 ms budget at a 10 ms interval (again 100 polls), accepts exactly
when status 0 is read with every earlier poll succeeding with nonzero status,
and a timeout is likewise ESP_ERR_TIMEOUT. -/
theorem ctrl_ap_erase_poll_budget (reads reads2 : Nat → EspErr × Nat)
    (post : EspErr) :
    (mass_erase_poll reads 0 100 = .ok ↔
      ∃ i < 100, (reads i).1 = .ok ∧ (reads i).2 = 0)
    ∧ (mass_erase_poll reads 0 100 ≠ .ok →
        mass_erase_poll reads 0 100 = .timeout)
    ∧ (mass_erase_poll reads 0 100 = .timeout →
        mass_erase_after_trigger reads post = (.timeout, []))
    ∧ (mass_erase_poll reads 0 100 = .ok →
        mass_erase_after_trigger reads post =
          (post, [.apWriteEv CTRL_AP_RESET 0,
                  .apReadEv CTRL_AP_APPROTECTSTATUS, .furtherSteps]))
    ∧ (approtect_poll reads2 0 100 = .ok ↔
        ∃ i < 100, (reads2 i).1 = .ok ∧ (reads2 i).2 = 0 ∧
          ∀ j < i, (reads2 j).1 = .ok ∧ (reads2 j).2 ≠ 0) := by
  refine ⟨?_, ?_, ?_, ?_, ?_⟩
  · simpa using mass_erase_poll_ok_iff reads 100 0
  · intro h
    rcases mass_erase_poll_ok_or_timeout reads 100 0 with hc | hc
    · exact absurd hc h
    · exact hc
  · intro h
    unfold mass_erase_after_trigger
    rw [h, if_pos rfl]
  · intro h
    unfold mass_erase_after_trigger
    rw [h, if_neg (by decide)]
  · simpa using approtect_poll_ok_iff reads2 100 0

/-- C4 amended witness: with status stuck at 1 for the first 100 polls, the
mass-erase poll times out and the operation stops there; on a stream that
reads 0 at the very first poll it succeeds and the tail steps run. -/
theorem ctrl_ap_erase_poll_budget_witness :
    mass_erase_after_trigger ex4reads .ok = (.timeout, [])
    ∧ mass_erase_after_trigger (fun _ => (.ok, 0)) .ok =
        (.ok, [.apWriteEv CTRL_AP_RESET 0,
               .apReadEv CTRL_AP_APPROTECTSTATUS, .furtherSteps])
    ∧ approtect_poll (fun _ => (.ok, 0)) 0 100 = .ok :=
  ⟨(ctrl_ap_erase_poll_budget ex4reads ex4reads .ok).2.2.1 (by decide),
   (ctrl_ap_erase_poll_budget (fun _ => (.ok, 0)) ex4reads .ok).2.2.2.1
     (by decide),
   ((ctrl_ap_erase_poll_budget ex4reads (fun _ => (.ok, 0)) .ok).2.2.2.2).mpr
     ⟨0, by decide, by decide, by decide, fun j hj => absurd hj (by omega)⟩⟩

/-- C4 counterexample: an erase whose status first reads 0 at the 101st poll,
5 s in.  The claimed 120 s budget (the same loop given 2400 iterations)
accepts it, but the code returns ESP_ERR_TIMEOUT after its actual 5000 ms
budget and performs nothing further on the target. -/
theorem ctrl_ap_unlock_budget_counterexample :
    mass_erase_poll ex4reads 0 100 = .timeout
    ∧ mass_erase_poll_spec ex4reads = .ok
    ∧ mass_erase_after_trigger ex4reads .ok = (.timeout, []) := by
  refine ⟨by decide, by decide, by decide⟩

theorem write_payload_lt (payload : List Nat) :
    ∀ buf off j, j < off → write_payload buf off payload j = buf j := by
  induction payload with
  | nil => intro buf off j _; rfl
  | cons b bs ih =>
    intro buf off j h
    simp only [write_payload]
    rw [ih _ (off + 1) j (by omega)]
    simp [Nat.ne_of_lt h]

theorem write_payload_ge (payload : List Nat) :
    ∀ buf off j, off + payload.length ≤ j →
      write_payload buf off payload j = buf j := by
  induction payload with
  | nil => intro buf off j _; rfl
  | cons b bs ih =>
    intro buf off j h
    simp only [List.length_cons] at h
    simp only [write_payload]
    rw [ih _ (off + 1) j (by omega)]
    have hne : j ≠ off := by omega
    simp [hne]

theorem write_payload_get (payload : List Nat) :
    ∀ buf off i (h : i < payload.length),
      write_payload buf off payload (off + i) = payload.get ⟨i, h⟩ := by
  induction payload with
  | nil => intro buf off i h; simp at h
  | cons b bs ih =>
    intro buf off i h
    simp only [write_payload]
    match i with
    | 0 =>
      rw [write_payload_lt bs _ (off + 1) (off + 0) (by omega)]
      simp
    | m + 1 =>
      rw [show off + (m + 1) = (off + 1) + m by omega]
      rw [ih _ (off + 1) m (by simp at h; omega)]
      rfl

theorem hex_offset_reduce (base abs_addr count : Nat) (_hb : base < U32)
    (hba : base ≤ abs_addr) (ha : abs_addr + count < U32) :
    (abs_addr + U32 - base) % U32 = abs_addr - base := by
  rw [show abs_addr + U32 - base = (abs_addr - base) + U32 by omega,
    Nat.add_mod_right, Nat.mod_eq_of_lt (by omega)]

/-- C1 amended: the coalescing sink behaves as follows.  An empty buffer
adopts the record: base becomes the record address and the payload is copied
at offset 0.  A record at or after base whose end offset fits the 16 KiB
capacity is copied at offset abs_addr - base_addr without any flush - also
when it is NOT contiguous with the current len - and len is raised to
max(len, offset + payload_len), bytes between regions keeping their previous
contents.  Only a record below base_addr, or one whose end offset exceeds
the capacity, triggers flush_buffer before the restart.  When the flush's
erase-then-program succeeds, the restart finds a reset buffer: len becomes
the payload length and bytes beyond it read 0xFF.  When it fails - a result
the callback ignores - the bytes and len survive: the restart overwrites the
front with the payload, len becomes max(old len, payload length), and the
stale bytes beyond the payload remain. -/
theorem hex_coalescing_cases (ctx : UploadCtx) (abs_addr : Nat)
    (payload : List Nat) (flashRes : EspErr)
    (hb : ctx.buffer_start_addr < U32)
    (ha : abs_addr + payload.length < U32) :
    (ctx.buffer_data_len = 0 →
      (hex_data_record ctx abs_addr payload flashRes).2 = false ∧
      (hex_data_record ctx abs_addr payload flashRes).1.buffer_start_addr =
        abs_addr ∧
      (hex_data_record ctx abs_addr payload flashRes).1.buffer_data_len =
        payload.length ∧
      (∀ i (h : i < payload.length),
        (hex_data_record ctx abs_addr payload flashRes).1.page_buffer i =
          payload.get ⟨i, h⟩) ∧
      (∀ j, payload.length ≤ j →
        (hex_data_record ctx abs_addr payload flashRes).1.page_buffer j =
          ctx.page_buffer j))
    ∧ (ctx.buffer_data_len ≠ 0 → ctx.buffer_start_addr ≤ abs_addr →
        abs_addr - ctx.buffer_start_addr + payload.length ≤
          PAGE_BUFFER_SIZE →
        (hex_data_record ctx abs_addr payload flashRes).2 = false ∧
        (hex_data_record ctx abs_addr payload flashRes).1.buffer_start_addr =
          ctx.buffer_start_addr ∧
        (hex_data_record ctx abs_addr payload flashRes).1.buffer_data_len =
          max ctx.buffer_data_len
            (abs_addr - ctx.buffer_start_addr + payload.length) ∧
        (∀ i (h : i < payload.length),
          (hex_data_record ctx abs_addr payload flashRes).1.page_buffer
            (abs_addr - ctx.buffer_start_addr + i) = payload.get ⟨i, h⟩) ∧
        (∀ j, j < abs_addr - ctx.buffer_start_addr ∨
            abs_addr - ctx.buffer_start_addr + payload.length ≤ j →
          (hex_data_record ctx abs_addr payload flashRes).1.page_buffer j =
            ctx.page_buffer j))
    ∧ (ctx.buffer_data_len ≠ 0 →
        (abs_addr < ctx.buffer_start_addr ∨
          PAGE_BUFFER_SIZE <
            abs_addr - ctx.buffer_start_addr + payload.length) →
        flashRes = .ok →
        (hex_data_record ctx abs_addr payload flashRes).2 = true ∧
        (hex_data_record ctx abs_addr payload flashRes).1.buffer_start_addr =
          abs_addr ∧
        (hex_data_record ctx abs_addr payload flashRes).1.buffer_data_len =
          payload.length ∧
        (∀ i (h : i < payload.length),
          (hex_data_record ctx abs_addr payload flashRes).1.page_buffer i =
            payload.get ⟨i, h⟩) ∧
        (∀ j, payload.length ≤ j →
          (hex_data_record ctx abs_addr payload flashRes).1.page_buffer j =
            0xFF))
    ∧ (ctx.buffer_data_len ≠ 0 →
        (abs_addr < ctx.buffer_start_addr ∨
          PAGE_BUFFER_SIZE <
            abs_addr - ctx.buffer_start_addr + payload.length) →
        flashRes ≠ .ok →
        (hex_data_record ctx abs_addr payload flashRes).2 = true ∧
        (hex_data_record ctx abs_addr payload flashRes).1.buffer_start_addr =
          abs_addr ∧
        (hex_data_record ctx abs_addr payload flashRes).1.buffer_data_len =
          max ctx.buffer_data_len payload.length ∧
        (∀ i (h : i < payload.length),
          (hex_data_record ctx abs_addr payload flashRes).1.page_buffer i =
            payload.get ⟨i, h⟩) ∧
        (∀ j, payload.length ≤ j →
          (hex_data_record ctx abs_addr payload flashRes).1.page_buffer j =
            ctx.page_buffer j)) := by
  have hcount : payload.length < U32 := by omega
  have hCof : ∀ _ : ctx.buffer_data_len ≠ 0,
      (abs_addr < ctx.buffer_start_addr ∨
        PAGE_BUFFER_SIZE <
          abs_addr - ctx.buffer_start_addr + payload.length) →
      (abs_addr < ctx.buffer_start_addr ∨
        ((abs_addr + U32 - ctx.buffer_start_addr) % U32 + payload.length) %
          U32 > PAGE_BUFFER_SIZE) := by
    intro _ hcond
    rcases hcond with hc | hc
    · exact Or.inl hc
    · rcases Nat.lt_or_ge abs_addr ctx.buffer_start_addr with hba | hba
      · exact Or.inl hba
      · right
        rw [hex_offset_reduce _ _ _ hb hba ha,
          Nat.mod_eq_of_lt (by omega)]
        exact hc
  refine ⟨?_, ?_, ?_, ?_⟩
  · intro h0
    simp only [hex_data_record, if_pos h0]
    refine ⟨by trivial, by trivial, ?_, ?_, ?_⟩
    · simp only [h0]
      rw [Nat.zero_add, Nat.mod_eq_of_lt hcount]
      split <;> omega
    · intro i h
      have := write_payload_get payload ctx.page_buffer 0 i h
      simpa using this
    · intro j hj
      exact write_payload_ge payload ctx.page_buffer 0 j (by omega)
  · intro h0 hba hfit
    have hoff : (abs_addr + U32 - ctx.buffer_start_addr) % U32 =
        abs_addr - ctx.buffer_start_addr :=
      hex_offset_reduce _ _ _ hb hba ha
    have hend : ((abs_addr + U32 - ctx.buffer_start_addr) % U32 +
        payload.length) % U32 =
        abs_addr - ctx.buffer_start_addr + payload.length := by
      rw [hoff, Nat.mod_eq_of_lt (by omega)]
    have hC : ¬(abs_addr < ctx.buffer_start_addr ∨
        ((abs_addr + U32 - ctx.buffer_start_addr) % U32 + payload.length) %
          U32 > PAGE_BUFFER_SIZE) := by
      rw [hend]
      push_neg
      exact ⟨hba, hfit⟩
    simp only [hex_data_record, if_neg h0, if_neg hC]
    refine ⟨by trivial, by trivial, ?_, ?_, ?_⟩
    · simp only [hend]
      split <;> omega
    · intro i h
      simp only [hoff]
      exact write_payload_get payload ctx.page_buffer _ i h
    · intro j hj
      simp only [hoff] at hj ⊢
      rcases hj with hj | hj
      · exact write_payload_lt payload ctx.page_buffer _ j hj
      · exact write_payload_ge payload ctx.page_buffer _ j hj
  · intro h0 hcond hfl
    simp only [hex_data_record, if_neg h0, if_pos (hCof h0 hcond),
      flush_buffer, if_neg h0, if_neg (not_not_intro hfl)]
    refine ⟨by trivial, by trivial, ?_, ?_, ?_⟩
    · rw [Nat.zero_add, Nat.mod_eq_of_lt hcount]
      split <;> omega
    · intro i h
      have := write_payload_get payload (fun _ => 0xFF) 0 i h
      simpa using this
    · intro j hj
      rw [write_payload_ge payload (fun _ => 0xFF) 0 j (by omega)]
  · intro h0 hcond hfl
    simp only [hex_data_record, if_neg h0, if_pos (hCof h0 hcond),
      flush_buffer, if_neg h0, if_pos hfl]
    refine ⟨by trivial, by trivial, ?_, ?_, ?_⟩
    · rw [Nat.zero_add, Nat.mod_eq_of_lt hcount]
      split <;> omega
    · intro i h
      have := write_payload_get payload ctx.page_buffer 0 i h
      simpa using this
    · intro j hj
      exact write_payload_ge payload ctx.page_buffer 0 j (by omega)

/-- C1 counterexample: a buffer holding 16 bytes at 0x26000 receives a data
record at 0x26020 - a non-contiguous forward jump, since base + len is
0x26010 - and the sink does NOT flush: the payload is copied at offset 0x20
and len jumps from 16 to 36 (the flash outcome is irrelevant on this path,
shown for both ok and a failure). -/
theorem hex_coalescing_counterexample :
    ex1ctx.buffer_data_len ≠ 0
    ∧ 0x26020 ≠ ex1ctx.buffer_start_addr + ex1ctx.buffer_data_len
    ∧ (hex_data_record ex1ctx 0x26020 [1, 2, 3, 4] .ok).2 = false
    ∧ (hex_data_record ex1ctx 0x26020 [1, 2, 3, 4] .ok).1.buffer_data_len = 36
    ∧ (hex_data_record ex1ctx 0x26020 [1, 2, 3, 4] .fail).2 = false := by
  refine ⟨by decide, by decide, ?_, ?_, ?_⟩ <;> decide

/-- C1 amended witness: the in-window case (record at 0x26050, no flush,
max-len update), a failed flush (record below base with the flash erroring:
the flush runs but the old len 16 survives, so len becomes max 16 1 = 16)
and a successful flush (same record, len resets to the payload length 1). -/
theorem hex_coalescing_cases_witness :
    ((hex_data_record ex1ctx 0x26050 [9] .ok).2 = false
      ∧ (hex_data_record ex1ctx 0x26050 [9] .ok).1.buffer_data_len =
          max ex1ctx.buffer_data_len
            (0x26050 - ex1ctx.buffer_start_addr + [9].length))
    ∧ ((hex_data_record ex1ctx 0x25000 [9] .fail).2 = true
      ∧ (hex_data_record ex1ctx 0x25000 [9] .fail).1.buffer_data_len =
          max ex1ctx.buffer_data_len [9].length)
    ∧ (hex_data_record ex1ctx 0x25000 [9] .ok).1.buffer_data_len =
        [9].length :=
  have h2 := (hex_coalescing_cases ex1ctx 0x26050 [9] .ok (by decide)
    (by decide)).2.1 (by decide) (by decide) (by decide)
  have h4 := (hex_coalescing_cases ex1ctx 0x25000 [9] .fail (by decide)
    (by decide)).2.2.2 (by decide) (Or.inl (by decide)) (by decide)
  have h3 := (hex_coalescing_cases ex1ctx 0x25000 [9] .ok (by decide)
    (by decide)).2.2.1 (by decide) (Or.inl (by decide)) rfl
  ⟨⟨h2.1, h2.2.2.1⟩, ⟨h4.1, h4.2.2.1⟩, h3.2.2.1⟩

theorem fan_loop_sends (len : Nat) (sendRes : Nat → Int) :
    ∀ (cs : List (Option Nat)) (i : Nat),
      ((fan_loop len sendRes i cs).2.filter isSendEv) =
        (cs.filterMap id).map (fun fd => FanEv.sendEv fd len) := by
  intro cs
  induction cs with
  | nil => intro i; rfl
  | cons c rest ih =>
    intro i
    match c with
    | none =>
      simp only [fan_loop, List.filterMap_cons_none]
      exact ih (i + 1)
    | some fd =>
      simp only [fan_loop, List.filterMap_cons_some]
      by_cases hn : sendRes i < 0
      · rw [if_pos hn]
        simp [isSendEv, ih (i + 1)]
      · rw [if_neg hn]
        simp [isSendEv, ih (i + 1)]

theorem fan_loop_no_lock (len : Nat) (sendRes : Nat → Int) :
    ∀ (cs : List (Option Nat)) (i : Nat),
      FanEv.lockEv ∉ (fan_loop len sendRes i cs).2 ∧
        FanEv.unlockEv ∉ (fan_loop len sendRes i cs).2 := by
  intro cs
  induction cs with
  | nil => intro i; simp [fan_loop]
  | cons c rest ih =>
    intro i
    match c with
    | none =>
      simp only [fan_loop]
      exact ih (i + 1)
    | some fd =>
      simp only [fan_loop]
      by_cases hn : sendRes i < 0
      · rw [if_pos hn]
        constructor
        · intro hm
          rcases List.mem_cons.mp hm with h | h
          · cases h
          · rcases List.mem_cons.mp h with h2 | h2
            · cases h2
            · exact (ih (i + 1)).1 h2
        · intro hm
          rcases List.mem_cons.mp hm with h | h
          · cases h
          · rcases List.mem_cons.mp h with h2 | h2
            · cases h2
            · exact (ih (i + 1)).2 h2
      · rw [if_neg hn]
        constructor
        · intro hm
          rcases List.mem_cons.mp hm with h | h
          · cases h
          · exact (ih (i + 1)).1 h
        · intro hm
          rcases List.mem_cons.mp hm with h | h
          · cases h
          · exact (ih (i + 1)).2 h

/-- C8: while the proxy is running, a notification of length at least 1 is
forwarded with exactly one send per live client, each carrying exactly the
full len bytes, in client order; the whole fan-out happens strictly between
taking the client-set mutex (the first event) and releasing it (the last
event), which are each taken exactly once. -/
theorem ble_fanout_per_client (len : Nat) (clients : List (Option Nat))
    (sendRes : Nat → Int) (hlen : 1 ≤ len) :
    ((tcp_forward_ble_data true len clients sendRes).2.filter isSendEv) =
      (clients.filterMap id).map (fun fd => FanEv.sendEv fd len)
    ∧ (tcp_forward_ble_data true len clients sendRes).2.head? =
        some FanEv.lockEv
    ∧ (tcp_forward_ble_data true len clients sendRes).2.getLast? =
        some FanEv.unlockEv
    ∧ (tcp_forward_ble_data true len clients sendRes).2.count
        FanEv.lockEv = 1
    ∧ (tcp_forward_ble_data true len clients sendRes).2.count
        FanEv.unlockEv = 1 := by
  have hguard : ¬(true = false ∨ len = 0) := by
    rintro (h | h)
    · cases h
    · omega
  simp only [tcp_forward_ble_data, if_neg hguard]
  refine ⟨?_, rfl, ?_, ?_, ?_⟩
  · rw [List.filter_append]
    have hb := fan_loop_sends len sendRes clients 0
    simp [isSendEv, hb]
  · rw [List.getLast?_concat]
  · have h1 := (fan_loop_no_lock len sendRes clients 0).1
    simp [List.count_append, List.count_cons, List.count_eq_zero.mpr h1]
  · have h2 := (fan_loop_no_lock len sendRes clients 0).2
    simp [List.count_append, List.count_cons, List.count_eq_zero.mpr h2]

/-- C8 witness: two live clients (fds 5 and 7) with one dead slot between
them, a 42-byte notification: exactly two sends of 42 bytes each. -/
theorem ble_fanout_per_client_witness :
    1 ≤ 42
    ∧ ((tcp_forward_ble_data true 42 [some 5, none, some 7]
        (fun _ => (42 : Int))).2.filter isSendEv) =
      (([some 5, none, some 7] : List (Option Nat)).filterMap id).map
        (fun fd => FanEv.sendEv fd 42) :=
  ⟨by decide,
   (ble_fanout_per_client 42 [some 5, none, some 7] (fun _ => (42 : Int))
     (by decide)).1⟩

theorem tcp_chunk_loop_done (n c : Nat) (conn sendOk : Nat → Bool) :
    ∀ fuel k offset, n ≤ offset →
      tcp_chunk_loop n c conn sendOk k offset fuel = [] := by
  intro fuel k offset h
  match fuel with
  | 0 => rfl
  | m + 1 =>
    simp only [tcp_chunk_loop]
    rw [if_neg]
    rintro ⟨h1, -⟩
    omega

theorem tcp_chunk_loop_filter (n c : Nat) (conn sendOk : Nat → Bool)
    (hc : 1 ≤ c) (hconn : ∀ k, conn k = true)
    (hsend : ∀ k, sendOk k = true) :
    ∀ fuel k offset, n - offset ≤ fuel →
      (tcp_chunk_loop n c conn sendOk k offset fuel).filter isBleSend =
        (List.range ((n - offset + c - 1) / c)).map
          (fun j => TcpEv.bleSend (offset + j * c)
            (min c (n - offset - j * c))) := by
  intro fuel
  induction fuel with
  | zero =>
    intro k offset hfuel
    have h0 : n - offset = 0 := by omega
    rw [h0]
    simp only [tcp_chunk_loop]
    rw [Nat.div_eq_of_lt (by omega)]
    rfl
  | succ m ih =>
    intro k offset hfuel
    by_cases ho : offset < n
    · have hcond : offset < n ∧ conn k = true := ⟨ho, hconn k⟩
      simp only [tcp_chunk_loop]
      rw [if_pos (by exact ⟨ho, hconn k⟩)]
      rw [if_neg (by rw [hsend k]; simp)]
      by_cases h2 : offset + min (n - offset) c < n
      · have hchunk : min (n - offset) c = c := by omega
        have hM : n - offset + c - 1 = ((n - offset - c) + c - 1) + c := by
          omega
        rw [if_pos h2]
        rw [hM, Nat.add_div_right _ (by omega), List.range_succ_eq_map]
        simp only [List.map_cons, List.map_map]
        rw [List.filter_cons, List.filter_cons]
        simp only [isBleSend, if_true, if_false, reduceIte]
        have ihr := ih (k + 1) (offset + min (n - offset) c)
          (by omega)
        rw [ihr]
        congr 1
        · congr 1 <;> omega
        · have hrange : (n - (offset + min (n - offset) c) + c - 1) / c =
              (n - offset - c + c - 1) / c := by
            rw [hchunk]
            congr 1
            omega
          rw [hrange]
          apply List.map_congr_left
          intro j hj
          simp only [Function.comp]
          rw [hchunk]
          congr 1
          · rw [Nat.succ_mul]
            omega
          · rw [Nat.succ_mul]
            omega
      · have hchunk : min (n - offset) c = n - offset := by omega
        rw [tcp_chunk_loop_done n c conn sendOk m (k + 1) _ (by omega)]
        rw [if_neg h2]
        rw [List.filter_cons]
        simp only [isBleSend, if_true, if_false, reduceIte, List.filter_nil]
        rw [show n - offset + c - 1 = (n - offset - 1) + c by omega,
          Nat.add_div_right _ (by omega),
          Nat.div_eq_of_lt (by omega)]
        rw [show List.range 1 = [0] from rfl]
        simp only [List.map_cons, List.map_nil]
        congr 1
        congr 1 <;> omega
    · rw [tcp_chunk_loop_done n c conn sendOk (m + 1) k offset (by omega)]
      have h0 : n - offset = 0 := by omega
      rw [h0, Nat.div_eq_of_lt (by omega)]
      rfl

/-- C6: with a live connection of ATT MTU `mtu` (at least 4) and all sends
succeeding, one TCP payload of n bytes is forwarded in exactly
ceil(n / c) calls of the BLE send capability, where c = min(mtu - 3, 244);
the j-th call carries the chunk at offset j*c of length min(c, n - j*c), so
each chunk is passed exactly once. -/
theorem tcp_chunking_count (n mtu : Nat) (conn sendOk : Nat → Bool)
    (hmtu : 4 ≤ mtu) (hconn : ∀ k, conn k = true)
    (hsend : ∀ k, sendOk k = true) :
    ((tcp_recv_chunks n (some mtu) conn sendOk).filter isBleSend).length =
      (n + tcp_mtu_size (some mtu) - 1) / tcp_mtu_size (some mtu)
    ∧ (tcp_recv_chunks n (some mtu) conn sendOk).filter isBleSend =
        (List.range
            ((n + tcp_mtu_size (some mtu) - 1) / tcp_mtu_size (some mtu))).map
          (fun j => TcpEv.bleSend (j * tcp_mtu_size (some mtu))
            (min (tcp_mtu_size (some mtu))
              (n - j * tcp_mtu_size (some mtu)))) := by
  have hc : 1 ≤ tcp_mtu_size (some mtu) := by
    simp only [tcp_mtu_size]
    split <;> omega
  have key := tcp_chunk_loop_filter n (tcp_mtu_size (some mtu)) conn sendOk
    hc hconn hsend n 0 0 (by omega)
  have key2 : (tcp_recv_chunks n (some mtu) conn sendOk).filter isBleSend =
      (List.range
          ((n + tcp_mtu_size (some mtu) - 1) / tcp_mtu_size (some mtu))).map
        (fun j => TcpEv.bleSend (j * tcp_mtu_size (some mtu))
          (min (tcp_mtu_size (some mtu)) (n - j * tcp_mtu_size (some mtu)))) := by
    rw [tcp_recv_chunks, key]
    simp only [Nat.sub_zero, Nat.zero_add]
  refine ⟨?_, key2⟩
  rw [key2, List.length_map, List.length_range]

/-- C6 witness: MTU 247 gives chunks of 244; a 300-byte payload goes out in
exactly two sends, (0, 244) and (244, 56). -/
theorem tcp_chunking_count_witness :
    ((tcp_recv_chunks 300 (some 247) (fun _ => true)
        (fun _ => true)).filter isBleSend).length = 2
    ∧ (tcp_recv_chunks 300 (some 247) (fun _ => true)
        (fun _ => true)).filter isBleSend =
      [TcpEv.bleSend 0 244, TcpEv.bleSend 244 56] :=
  have h := tcp_chunking_count 300 247 (fun _ => true) (fun _ => true)
    (by decide) (fun _ => rfl) (fun _ => rfl)
  ⟨h.1.trans (by decide), h.2.trans (by decide)⟩

end Flasher
